import Mathlib

/-!
Verification of the protocol handler and the queue/worker concurrency engine of
a multithreaded line-oriented TCP server (`homework/00_multithreaded_server/server.py`).

Strings are modelled as `List Char`.  The Python string operations used by the
server (`str.strip`, `str.split(" ", 1)`, `str.upper`, `int(...)`, f-string
formatting of an integer) are embedded as executable Lean functions below, and
`parse_and_execute` is a direct transcription of the Python function of the
same name.
-/

namespace Server

/-- Python whitespace test for a character (`str.isspace`), the class of
characters removed by `str.strip()`: the ASCII whitespace characters
(TAB 9, LF 10, VT 11, FF 12, CR 13, the separators 28-31, SPACE 32) together
with the Unicode space characters (NEL 133, NBSP 160, 5760, the range
8192-8202, LINE/PARA separators 8232/8233, 8239, 8287, and 12288). -/
def isPySpace (c : Char) : Bool :=
  (9 ≤ c.toNat && c.toNat ≤ 13) || (28 ≤ c.toNat && c.toNat ≤ 32) ||
  c.toNat = 133 || c.toNat = 160 || c.toNat = 5760 ||
  (8192 ≤ c.toNat && c.toNat ≤ 8202) || c.toNat = 8232 || c.toNat = 8233 ||
  c.toNat = 8239 || c.toNat = 8287 || c.toNat = 12288

/-- Python `line.strip()`: remove leading and trailing whitespace. -/
def pyStrip (l : List Char) : List Char :=
  List.rdropWhile isPySpace (List.dropWhile isPySpace l)

/-- Python `line.split(" ", 1)`: split at the first SPACE (U+0020) only.
Returns the part before the first space and, when a space exists, the part
after it (Python returns a one- or two-element list). -/
def splitOnceSpace : List Char → List Char × Option (List Char)
  | [] => ([], none)
  | c :: rest =>
    if c = ' ' then ([], some rest)
    else
      let p := splitOnceSpace rest
      (c :: p.1, p.2)

/-- Python `s.upper()` (restricted to the ASCII letters, which is all the
characters `Char.toUpper` maps; the protocol keywords are ASCII). -/
def pyUpper (l : List Char) : List Char :=
  l.map Char.toUpper

/-- Value of a run of decimal digits possibly containing single underscores
strictly between digits, continuing the accumulated value `acc`; models the
digit part of CPython `int(str)` parsing (PEP 515 underscores included). -/
def parseDigits : Nat → List Char → Option Nat
  | acc, [] => some acc
  | acc, c :: rest =>
    if c.isDigit then parseDigits (acc * 10 + (c.toNat - 48)) rest
    else if c = '_' then
      match rest with
      | [] => none
      | d :: rest2 =>
        if d.isDigit then parseDigits (acc * 10 + (d.toNat - 48)) rest2 else none
    else none

/-- Nonempty digit run with optional internal underscores; first character
must be a digit (no leading underscore). -/
def parseDigitsTop : List Char → Option Nat
  | [] => none
  | c :: rest => if c.isDigit then parseDigits (c.toNat - 48) rest else none

/-- CPython `int(s)` on a decimal string: strip whitespace, optional single
sign, then a digit run (with optional internal underscores).  Returns `none`
when CPython would raise `ValueError`.  (Non-ASCII decimal digits are not
modelled.) -/
def pyInt (l : List Char) : Option Int :=
  match pyStrip l with
  | [] => none
  | c :: rest =>
    if c = '+' then (parseDigitsTop rest).map Int.ofNat
    else if c = '-' then (parseDigitsTop rest).map (fun n => -(n : Int))
    else (parseDigitsTop (c :: rest)).map Int.ofNat

/-- Decimal digits of `n` prepended to `acc` (most significant first), with
explicit fuel so the recursion is structural; `fuel ≥ n` suffices. -/
def natDecimalAux : Nat → Nat → List Char → List Char
  | 0, _, acc => acc
  | _ + 1, 0, acc => acc
  | fuel + 1, n + 1, acc =>
    natDecimalAux fuel ((n + 1) / 10) (Char.ofNat (48 + (n + 1) % 10) :: acc)

/-- Canonical decimal representation of a natural number, as produced by
Python `str` / f-string formatting of a nonnegative `int`. -/
def natDecimal (n : Nat) : List Char :=
  if n = 0 then ['0'] else natDecimalAux n n []

/-- Python `str` / f-string formatting of an `int` (sign and canonical
decimal digits). -/
def pyIntRepr (i : Int) : List Char :=
  if i < 0 then '-' :: natDecimal i.natAbs else natDecimal i.toNat

/-- Dispatch of `parse_and_execute` on the already-split opcode (uppercased)
and argument text: the `if op == "SLEEP" / elif op == "ECHO" / else` chain of
server.py lines 40-53.  `int(arg)` raising `ValueError` is modelled by
`pyInt arg = none`; `time.sleep` has no effect on the returned string. -/
def dispatch (op arg : List Char) : List Char :=
  if op = "SLEEP".data then
    match pyInt arg with
    | some ms =>
      if ms < 0 ∨ 10000 < ms then "ERR SLEEP ms must be 0..10000".data
      else "OK ".data ++ pyIntRepr ms
    | none => "ERR invalid argument".data
  else if op = "ECHO".data then
    "OK ".data ++ arg
  else
    "ERR unknown op ".data ++ op

/-- Transcription of `parse_and_execute` (server.py lines 22-53): strip the
line, answer `ERR empty request` on an empty result, otherwise split at the
first space into opcode and argument, uppercase the opcode and dispatch. -/
def parse_and_execute (line : List Char) : List Char :=
  let s := pyStrip line
  if s = [] then "ERR empty request".data
  else
    let parts := splitOnceSpace s
    dispatch (pyUpper parts.1) (parts.2.getD [])

/-! ### Character-level lemmas -/

theorem char_toNat_ofNat {n : Nat} (h : n < 55296) : (Char.ofNat n).toNat = n := by
  have hv : n.isValidChar := Or.inl (by omega)
  rw [Char.ofNat, dif_pos hv]
  rfl

theorem char_eq_of_toNat {c d : Char} (h : c.toNat = d.toNat) : c = d := by
  rw [← Char.ofNat_toNat c, ← Char.ofNat_toNat d, h]

theorem char_toNat_toUpper (c : Char) :
    c.toUpper.toNat = if 97 ≤ c.toNat ∧ c.toNat ≤ 122 then c.toNat - 32 else c.toNat := by
  rw [Char.toUpper]
  split
  · next h => exact char_toNat_ofNat (by omega)
  · rfl

theorem char_toNat_toLower (c : Char) :
    c.toLower.toNat = if 65 ≤ c.toNat ∧ c.toNat ≤ 90 then c.toNat + 32 else c.toNat := by
  rw [Char.toLower]
  split
  · next h => exact char_toNat_ofNat (by omega)
  · rfl

theorem toUpper_toUpper (c : Char) : c.toUpper.toUpper = c.toUpper := by
  apply char_eq_of_toNat
  rw [char_toNat_toUpper c.toUpper, char_toNat_toUpper c]
  split_ifs <;> omega

theorem toUpper_toLower (c : Char) : c.toLower.toUpper = c.toUpper := by
  apply char_eq_of_toNat
  rw [char_toNat_toUpper c.toLower, char_toNat_toLower c, char_toNat_toUpper c]
  split_ifs <;> omega

theorem isPySpace_iff {c : Char} : isPySpace c = true ↔
    (9 ≤ c.toNat ∧ c.toNat ≤ 13) ∨ (28 ≤ c.toNat ∧ c.toNat ≤ 32) ∨
    c.toNat = 133 ∨ c.toNat = 160 ∨ c.toNat = 5760 ∨
    (8192 ≤ c.toNat ∧ c.toNat ≤ 8202) ∨ c.toNat = 8232 ∨ c.toNat = 8233 ∨
    c.toNat = 8239 ∨ c.toNat = 8287 ∨ c.toNat = 12288 := by
  simp [isPySpace, Bool.or_eq_true, Bool.and_eq_true, decide_eq_true_iff]
  tauto

theorem isPySpace_toUpper (c : Char) : isPySpace c.toUpper = isPySpace c := by
  rw [Bool.eq_iff_iff, isPySpace_iff, isPySpace_iff, char_toNat_toUpper]
  split_ifs <;> omega

theorem isPySpace_toLower (c : Char) : isPySpace c.toLower = isPySpace c := by
  rw [Bool.eq_iff_iff, isPySpace_iff, isPySpace_iff, char_toNat_toLower]
  split_ifs <;> omega

theorem isDigit_iff {c : Char} : c.isDigit = true ↔ 48 ≤ c.toNat ∧ c.toNat ≤ 57 := by
  simp [Char.isDigit, UInt32.le_def, BitVec.le_def, Char.toNat, UInt32.toNat]

theorem not_pySpace_of_digit {c : Char} (h : c.isDigit = true) : isPySpace c = false := by
  rw [isDigit_iff] at h
  rw [← Bool.not_eq_true, isPySpace_iff]
  omega

theorem ne_of_toNat_ne {c d : Char} (h : c.toNat ≠ d.toNat) : c ≠ d :=
  fun he => h (he ▸ rfl)

theorem digit_ne_space {c : Char} (h : c.isDigit = true) : c ≠ ' ' := by
  rw [isDigit_iff] at h
  exact ne_of_toNat_ne (by simpa using by omega)

theorem not_space_of_not_ws {c : Char} (h : isPySpace c = false) : ¬ c = ' ' := by
  intro hc
  rw [hc] at h
  exact absurd h (by decide)

/-! ### List-level lemmas about `rdropWhile` and `splitOnceSpace` -/

theorem rdropWhile_append (p : Char → Bool) (xs ys : List Char) :
    List.rdropWhile p (xs ++ ys) =
      if (List.rdropWhile p ys).isEmpty then List.rdropWhile p xs
      else xs ++ List.rdropWhile p ys := by
  by_cases h : List.dropWhile p ys.reverse = []
  · rw [if_pos (by simp [List.rdropWhile, h])]
    simp [List.rdropWhile, List.reverse_append, List.dropWhile_append, h]
  · rw [if_neg (by simp [List.rdropWhile, h])]
    simp [List.rdropWhile, List.reverse_append, List.dropWhile_append, h]

theorem rdropWhile_cons_neg {p : Char → Bool} {c : Char} (h : p c = false) (t : List Char) :
    List.rdropWhile p (c :: t) = c :: List.rdropWhile p t := by
  have hc : c :: t = [c] ++ t := rfl
  rw [hc, rdropWhile_append]
  split_ifs with h2
  · rw [List.isEmpty_eq_true] at h2
    rw [h2, List.rdropWhile_singleton, if_neg (by simp [h])]
  · rfl

theorem rdropWhile_cons_pos {p : Char → Bool} {c : Char} (h : p c = true) (t : List Char) :
    List.rdropWhile p (c :: t) =
      if (List.rdropWhile p t).isEmpty then [] else c :: List.rdropWhile p t := by
  have hc : c :: t = [c] ++ t := rfl
  rw [hc, rdropWhile_append]
  split_ifs with h2
  · rw [List.rdropWhile_singleton, if_pos h]
  · rfl

theorem dropWhile_rdropWhile_comm (p : Char → Bool) (l : List Char) :
    List.dropWhile p (List.rdropWhile p l) = List.rdropWhile p (List.dropWhile p l) := by
  induction l with
  | nil => simp
  | cons c t ih =>
    by_cases hc : p c = true
    · rw [rdropWhile_cons_pos hc, List.dropWhile_cons_of_pos hc]
      split_ifs with h2
      · rw [List.isEmpty_eq_true] at h2
        rw [← ih, h2]
      · rw [List.dropWhile_cons_of_pos hc]
        exact ih
    · have hc' : p c = false := by simpa using hc
      rw [rdropWhile_cons_neg hc', List.dropWhile_cons_of_neg (by simp [hc']),
        List.dropWhile_cons_of_neg (by simp [hc']), rdropWhile_cons_neg hc']

theorem pyStrip_rdropWhile (l : List Char) :
    pyStrip (List.rdropWhile isPySpace l) = pyStrip l := by
  unfold pyStrip
  rw [dropWhile_rdropWhile_comm, List.rdropWhile_idempotent]

theorem pyInt_rdropWhile (l : List Char) :
    pyInt (List.rdropWhile isPySpace l) = pyInt l := by
  unfold pyInt
  rw [pyStrip_rdropWhile]

theorem splitOnceSpace_append {xs : List Char} (h : ∀ c ∈ xs, ¬ c = ' ') (ys : List Char) :
    splitOnceSpace (xs ++ ys) =
      (xs ++ (splitOnceSpace ys).1, (splitOnceSpace ys).2) := by
  induction xs with
  | nil => simp
  | cons c t ih =>
    have hc : ¬ c = ' ' := h c (List.mem_cons_self c t)
    have ih2 := ih (fun d hd => h d (List.mem_cons_of_mem c hd))
    have hstep : splitOnceSpace (c :: (t ++ ys)) =
        (c :: (splitOnceSpace (t ++ ys)).1, (splitOnceSpace (t ++ ys)).2) := by
      simp [splitOnceSpace, hc]
    rw [List.cons_append, hstep, ih2]
    simp

theorem splitOnceSpace_no_space {xs : List Char} (h : ∀ c ∈ xs, ¬ c = ' ') :
    splitOnceSpace xs = (xs, none) := by
  have := splitOnceSpace_append h []
  simpa [splitOnceSpace] using this

theorem splitOnceSpace_fst (l : List Char) :
    (splitOnceSpace l).1 = l.takeWhile (fun c => ! decide (c = ' ')) := by
  induction l with
  | nil => rfl
  | cons c t ih =>
    by_cases hc : c = ' '
    · simp [splitOnceSpace, hc, List.takeWhile_cons]
    · simp only [splitOnceSpace, if_neg hc, List.takeWhile_cons, decide_eq_true_eq]
      rw [if_pos (by simp [hc])]
      simp [ih]

theorem mem_pyStrip {c : Char} {l : List Char} (h : c ∈ pyStrip l) : c ∈ l := by
  unfold pyStrip at h
  exact (List.dropWhile_sublist _).subset ((List.rdropWhile_prefix _ _).sublist.subset h)

theorem mem_splitOnceSpace_fst {c : Char} {l : List Char}
    (h : c ∈ (splitOnceSpace l).1) : c ∈ l := by
  rw [splitOnceSpace_fst] at h
  exact (List.takeWhile_sublist _).subset h

theorem mem_splitOnceSpace_snd {c : Char} {l a : List Char}
    (hs : (splitOnceSpace l).2 = some a) (h : c ∈ a) : c ∈ l := by
  induction l with
  | nil => simp [splitOnceSpace] at hs
  | cons d t ih =>
    by_cases hd : d = ' '
    · simp only [splitOnceSpace, if_pos hd, Option.some.injEq] at hs
      exact List.mem_cons_of_mem d (hs ▸ h)
    · simp only [splitOnceSpace, if_neg hd] at hs
      exact List.mem_cons_of_mem d (ih hs)

/-! ### Decomposition of a request line `<op> SP <arg>` -/

theorem parse_line_decompose {op : List Char} (arg : List Char) (hne : op ≠ [])
    (hop : ∀ c ∈ op, isPySpace c = false) :
    parse_and_execute (op ++ ' ' :: arg) =
      dispatch (pyUpper op) (List.rdropWhile isPySpace arg) := by
  obtain ⟨c, t, rfl⟩ := List.exists_cons_of_ne_nil hne
  have hnosp : ∀ d ∈ c :: t, ¬ d = ' ' := fun d hd => not_space_of_not_ws (hop d hd)
  have hdrop : List.dropWhile isPySpace ((c :: t) ++ ' ' :: arg) = (c :: t) ++ ' ' :: arg :=
    List.dropWhile_cons_of_neg (by simp [hop c (List.mem_cons_self c t)])
  have hself : List.rdropWhile isPySpace (c :: t) = c :: t := by
    rw [List.rdropWhile_eq_self_iff]
    intro hl
    simp [hop _ (List.getLast_mem hl)]
  have hsp : (' ' :: arg) = [' '] ++ arg := rfl
  by_cases h : List.rdropWhile isPySpace arg = []
  · have h1 : List.rdropWhile isPySpace (' ' :: arg) = [] := by
      rw [hsp, rdropWhile_append, if_pos (by simp [h]), List.rdropWhile_singleton,
        if_pos (by decide)]
    have h2 : pyStrip ((c :: t) ++ ' ' :: arg) = c :: t := by
      unfold pyStrip
      rw [hdrop, rdropWhile_append, if_pos (by simp [h1]), hself]
    rw [parse_and_execute, h2]
    rw [if_neg (by simp)]
    rw [splitOnceSpace_no_space hnosp, h]
    rfl
  · have h1 : List.rdropWhile isPySpace (' ' :: arg) = ' ' :: List.rdropWhile isPySpace arg := by
      rw [hsp, rdropWhile_append, if_neg (by simp [h])]
      rfl
    have h2 : pyStrip ((c :: t) ++ ' ' :: arg) = (c :: t) ++ ' ' :: List.rdropWhile isPySpace arg := by
      unfold pyStrip
      rw [hdrop, rdropWhile_append, if_neg (by simp [h1, h]), h1]
    rw [parse_and_execute, h2]
    rw [if_neg (by simp)]
    have hsplit : splitOnceSpace (' ' :: List.rdropWhile isPySpace arg) =
        ([], some (List.rdropWhile isPySpace arg)) := by
      simp [splitOnceSpace]
    rw [splitOnceSpace_append hnosp, hsplit]
    simp

/-! ### Decimal representation and `pyInt` round trip -/

theorem natDecimalAux_acc (fuel n : Nat) (acc : List Char) :
    natDecimalAux fuel n acc = natDecimalAux fuel n [] ++ acc := by
  induction fuel generalizing n acc with
  | zero => simp [natDecimalAux]
  | succ f ih =>
    cases n with
    | zero => simp [natDecimalAux]
    | succ m =>
      show natDecimalAux f ((m + 1) / 10) (Char.ofNat (48 + (m + 1) % 10) :: acc) =
        natDecimalAux f ((m + 1) / 10) (Char.ofNat (48 + (m + 1) % 10) :: []) ++ acc
      rw [ih ((m + 1) / 10) (Char.ofNat (48 + (m + 1) % 10) :: acc),
        ih ((m + 1) / 10) (Char.ofNat (48 + (m + 1) % 10) :: [])]
      simp

theorem natDecimalAux_fuel {fuel fuel' n : Nat} (h : n ≤ fuel) (h' : n ≤ fuel')
    (acc : List Char) : natDecimalAux fuel n acc = natDecimalAux fuel' n acc := by
  induction fuel generalizing fuel' n acc with
  | zero =>
    have hn : n = 0 := Nat.le_zero.mp h
    subst hn
    cases fuel' <;> simp [natDecimalAux]
  | succ f ih =>
    cases n with
    | zero => cases fuel' <;> simp [natDecimalAux]
    | succ m =>
      cases fuel' with
      | zero => omega
      | succ f2 =>
        show natDecimalAux f ((m + 1) / 10) _ = natDecimalAux f2 ((m + 1) / 10) _
        have hdiv : (m + 1) / 10 < m + 1 := Nat.div_lt_self (Nat.succ_pos m) (by decide)
        exact ih (by omega) (by omega) _

theorem natDecimal_small {n : Nat} (h : n < 10) : natDecimal n = [Char.ofNat (48 + n)] := by
  unfold natDecimal
  by_cases h0 : n = 0
  · subst h0
    simp
  · rw [if_neg h0]
    obtain ⟨m, rfl⟩ : ∃ m, n = m + 1 := ⟨n - 1, by omega⟩
    show natDecimalAux m ((m + 1) / 10) [Char.ofNat (48 + (m + 1) % 10)] = _
    rw [Nat.div_eq_of_lt h, Nat.mod_eq_of_lt h]
    cases m <;> rfl

theorem natDecimal_step {n : Nat} (h : 10 ≤ n) :
    natDecimal n = natDecimal (n / 10) ++ [Char.ofNat (48 + n % 10)] := by
  have hq : n / 10 ≠ 0 := by
    have := Nat.div_le_div_right (c := 10) h
    simpa using by omega
  unfold natDecimal
  rw [if_neg (by omega), if_neg hq]
  obtain ⟨m, rfl⟩ : ∃ m, n = m + 1 := ⟨n - 1, by omega⟩
  show natDecimalAux m ((m + 1) / 10) [Char.ofNat (48 + (m + 1) % 10)] = _
  rw [natDecimalAux_acc m]
  congr 1
  have hdiv : (m + 1) / 10 < m + 1 := Nat.div_lt_self (Nat.succ_pos m) (by decide)
  exact natDecimalAux_fuel (by omega) (le_refl _) _

theorem isDigit_ofNat_digit {m : Nat} (h : m < 10) : (Char.ofNat (48 + m)).isDigit = true := by
  rw [isDigit_iff, char_toNat_ofNat (by omega)]
  omega

theorem natDecimal_mem_digit {n : Nat} : ∀ c ∈ natDecimal n, c.isDigit = true := by
  induction n using Nat.strong_induction_on with
  | _ n ih =>
    by_cases h : n < 10
    · rw [natDecimal_small h]
      intro c hc
      rw [List.mem_singleton] at hc
      subst hc
      exact isDigit_ofNat_digit h
    · rw [natDecimal_step (by omega)]
      intro c hc
      rcases List.mem_append.mp hc with h1 | h1
      · exact ih (n / 10) (Nat.div_lt_self (by omega) (by decide)) c h1
      · rw [List.mem_singleton] at h1
        subst h1
        exact isDigit_ofNat_digit (Nat.mod_lt n (by decide))

theorem natDecimal_foldl (n : Nat) :
    (natDecimal n).foldl (fun a c => a * 10 + (c.toNat - 48)) 0 = n := by
  induction n using Nat.strong_induction_on with
  | _ n ih =>
    by_cases h : n < 10
    · rw [natDecimal_small h]
      simp [char_toNat_ofNat (show 48 + n < 55296 by omega)]
    · rw [natDecimal_step (by omega), List.foldl_append,
        ih (n / 10) (Nat.div_lt_self (by omega) (by decide))]
      simp [char_toNat_ofNat (show 48 + n % 10 < 55296 by omega)]
      omega

theorem natDecimal_ne_nil (n : Nat) : natDecimal n ≠ [] := by
  intro h
  have h2 := natDecimal_foldl n
  rw [h] at h2
  simp at h2
  subst h2
  exact absurd h (by decide)

theorem parseDigits_all_digits {l : List Char} (h : ∀ c ∈ l, c.isDigit = true) (acc : Nat) :
    parseDigits acc l = some (l.foldl (fun a c => a * 10 + (c.toNat - 48)) acc) := by
  induction l generalizing acc with
  | nil => simp [parseDigits]
  | cons c t ih =>
    have hc := h c (List.mem_cons_self c t)
    have hstep : parseDigits acc (c :: t) = parseDigits (acc * 10 + (c.toNat - 48)) t := by
      rw [parseDigits.eq_def]
      simp [hc]
    rw [hstep, ih (fun d hd => h d (List.mem_cons_of_mem c hd))]
    simp

theorem parseDigitsTop_natDecimal (n : Nat) : parseDigitsTop (natDecimal n) = some n := by
  obtain ⟨c, t, hct⟩ : ∃ c t, natDecimal n = c :: t := by
    cases h : natDecimal n with
    | nil => exact absurd h (natDecimal_ne_nil n)
    | cons c t => exact ⟨c, t, rfl⟩
  have hall : ∀ d ∈ natDecimal n, Char.isDigit d = true := natDecimal_mem_digit
  have hc : c.isDigit = true := hall c (hct ▸ List.mem_cons_self c t)
  rw [hct, parseDigitsTop, if_pos hc,
    parseDigits_all_digits (fun d hd => hall d (hct ▸ List.mem_cons_of_mem c hd))]
  have hv := natDecimal_foldl n
  rw [hct] at hv
  simp only [List.foldl_cons, Nat.zero_mul, Nat.zero_add] at hv
  rw [hv]

theorem pyStrip_eq_self {l : List Char} (h : ∀ c ∈ l, isPySpace c = false) :
    pyStrip l = l := by
  unfold pyStrip
  have h1 : List.dropWhile isPySpace l = l := by
    rw [List.dropWhile_eq_self_iff]
    intro hl
    simp [h _ (List.getElem_mem hl)]
  rw [h1, List.rdropWhile_eq_self_iff]
  intro hl
  simp [h _ (List.getLast_mem hl)]

theorem digit_not_sign {c : Char} (h : c.isDigit = true) : ¬ c = '+' ∧ ¬ c = '-' := by
  rw [isDigit_iff] at h
  constructor <;> exact ne_of_toNat_ne (by simpa using by omega)

theorem pyInt_cons_digit {c : Char} {t : List Char} (hd : c.isDigit = true)
    (hs : pyStrip (c :: t) = c :: t) :
    pyInt (c :: t) = (parseDigitsTop (c :: t)).map Int.ofNat := by
  unfold pyInt
  rw [hs]
  show (if c = '+' then (parseDigitsTop t).map Int.ofNat
    else if c = '-' then (parseDigitsTop t).map (fun n => -(n : Int))
    else (parseDigitsTop (c :: t)).map Int.ofNat) = _
  rw [if_neg (digit_not_sign hd).1, if_neg (digit_not_sign hd).2]

theorem pyInt_natDecimal (n : Nat) : pyInt (natDecimal n) = some (n : Int) := by
  obtain ⟨c, t, hct⟩ : ∃ c t, natDecimal n = c :: t := by
    cases h : natDecimal n with
    | nil => exact absurd h (natDecimal_ne_nil n)
    | cons c t => exact ⟨c, t, rfl⟩
  have hc : c.isDigit = true := natDecimal_mem_digit c (hct ▸ List.mem_cons_self c t)
  have hs : pyStrip (c :: t) = c :: t := by
    rw [← hct]
    exact pyStrip_eq_self (fun d hd => not_pySpace_of_digit (natDecimal_mem_digit d hd))
  rw [hct, pyInt_cons_digit hc hs, ← hct, parseDigitsTop_natDecimal]
  rfl

/-! ### Dispatch helper lemmas -/

theorem dispatch_sleep_some {arg : List Char} {v : Int} (h : pyInt arg = some v) :
    dispatch "SLEEP".data arg =
      if v < 0 ∨ 10000 < v then "ERR SLEEP ms must be 0..10000".data
      else "OK ".data ++ pyIntRepr v := by
  unfold dispatch
  rw [if_pos rfl, h]

theorem dispatch_sleep_none {arg : List Char} (h : pyInt arg = none) :
    dispatch "SLEEP".data arg = "ERR invalid argument".data := by
  unfold dispatch
  rw [if_pos rfl, h]

theorem dispatch_echo (arg : List Char) :
    dispatch "ECHO".data arg = "OK ".data ++ arg := by
  unfold dispatch
  rw [if_neg (by decide), if_pos rfl]

theorem dispatch_unknown {op : List Char} (arg : List Char)
    (h1 : op ≠ "SLEEP".data) (h2 : op ≠ "ECHO".data) :
    dispatch op arg = "ERR unknown op ".data ++ op := by
  unfold dispatch
  rw [if_neg h1, if_neg h2]

theorem rdropWhile_natDecimal (n : Nat) :
    List.rdropWhile isPySpace (natDecimal n) = natDecimal n := by
  rw [List.rdropWhile_eq_self_iff]
  intro hl
  simp [not_pySpace_of_digit (natDecimal_mem_digit _ (List.getLast_mem hl))]

/-! ### Claims about the protocol handler -/

/-- Claim C10: for the input lines `ECHO` (no argument) and `ECHO ` (opcode
followed only by whitespace), `parse_and_execute` returns the three-character
string `OK ` — `OK` followed by exactly one trailing space — rather than `OK`
or an error reply. -/
theorem echo_no_argument :
    parse_and_execute "ECHO".data = ['O', 'K', ' '] ∧
    parse_and_execute "ECHO ".data = ['O', 'K', ' '] ∧
    "OK ".data = ['O', 'K', ' '] := by decide

/-- Claim C1: for every integer `ms` with `0 ≤ ms ≤ 10000` written in
canonical decimal, `parse_and_execute` on the line `SLEEP <ms>` returns
exactly `OK <ms>`. -/
theorem sleep_ok (ms : Nat) (h : ms ≤ 10000) :
    parse_and_execute ("SLEEP ".data ++ natDecimal ms) = "OK ".data ++ natDecimal ms := by
  rw [show "SLEEP ".data = "SLEEP".data ++ [' '] from by decide, List.append_assoc,
    show ([' '] : List Char) ++ natDecimal ms = ' ' :: natDecimal ms from rfl,
    parse_line_decompose _ (by decide) (by decide), rdropWhile_natDecimal,
    show pyUpper "SLEEP".data = "SLEEP".data from by decide,
    dispatch_sleep_some (pyInt_natDecimal ms), if_neg (by omega)]
  have hrepr : pyIntRepr (ms : Int) = natDecimal ms := by
    unfold pyIntRepr
    rw [if_neg (by omega)]
    simp
  rw [hrepr]

/-- Witness for C1 at `ms = 42`. -/
theorem sleep_ok_witness :
    parse_and_execute ("SLEEP ".data ++ natDecimal 42) = "OK ".data ++ natDecimal 42 :=
  sleep_ok 42 (by decide)

/-- Claim C2 as stated is false: the text `a ` contains no line terminator,
yet `ECHO a ` returns `OK a` — the trailing space of the argument is removed
by the initial `line.strip()`, not returned verbatim. -/
theorem echo_counterexample :
    parse_and_execute ("ECHO ".data ++ "a ".data) ≠ "OK ".data ++ "a ".data := by decide

/-- Claim C2 amended: `ECHO <text>` returns `OK ` followed by `text` with its
trailing Python whitespace removed; leading and internal characters (including
all internal whitespace) are returned verbatim.  In particular, whenever
`text` has no trailing whitespace the reply is exactly `OK <text>`. -/
theorem echo_verbatim (text : List Char) :
    parse_and_execute ("ECHO ".data ++ text) =
      "OK ".data ++ List.rdropWhile isPySpace text ∧
    (List.rdropWhile isPySpace text = text →
      parse_and_execute ("ECHO ".data ++ text) = "OK ".data ++ text) := by
  have hmain : parse_and_execute ("ECHO ".data ++ text) =
      "OK ".data ++ List.rdropWhile isPySpace text := by
    rw [show "ECHO ".data = "ECHO".data ++ [' '] from by decide, List.append_assoc,
      show ([' '] : List Char) ++ text = ' ' :: text from rfl,
      parse_line_decompose _ (by decide) (by decide),
      show pyUpper "ECHO".data = "ECHO".data from by decide, dispatch_echo]
  exact ⟨hmain, fun h => by rw [hmain, h]⟩

/-- Witness for C2 (amended) at `text = " a b"` (leading and internal
whitespace, no trailing whitespace). -/
theorem echo_verbatim_witness :
    parse_and_execute ("ECHO ".data ++ " a b".data) = "OK ".data ++ " a b".data :=
  (echo_verbatim " a b".data).2 (by decide)

/-- Claim C4: the documented per-request error replies for malformed
requests: a line that is empty after trimming answers `ERR empty request`;
`SLEEP <arg>` with `arg` an integer outside `[0, 10000]` answers
`ERR SLEEP ms must be 0..10000`; `SLEEP <arg>` with `arg` not parsing as an
integer answers `ERR invalid argument`. -/
theorem malformed_requests :
    (∀ line : List Char, pyStrip line = [] →
      parse_and_execute line = "ERR empty request".data) ∧
    (∀ (arg : List Char) (v : Int), pyInt arg = some v → (v < 0 ∨ 10000 < v) →
      parse_and_execute ("SLEEP ".data ++ arg) = "ERR SLEEP ms must be 0..10000".data) ∧
    (∀ arg : List Char, pyInt arg = none →
      parse_and_execute ("SLEEP ".data ++ arg) = "ERR invalid argument".data) := by
  refine ⟨?_, ?_, ?_⟩
  · intro line h
    show (if pyStrip line = [] then "ERR empty request".data
      else dispatch (pyUpper (splitOnceSpace (pyStrip line)).1)
        ((splitOnceSpace (pyStrip line)).2.getD [])) = _
    rw [if_pos h]
  · intro arg v hv hrange
    rw [show "SLEEP ".data = "SLEEP".data ++ [' '] from by decide, List.append_assoc,
      show ([' '] : List Char) ++ arg = ' ' :: arg from rfl,
      parse_line_decompose _ (by decide) (by decide),
      show pyUpper "SLEEP".data = "SLEEP".data from by decide,
      dispatch_sleep_some (by rw [pyInt_rdropWhile]; exact hv), if_pos hrange]
  · intro arg h
    rw [show "SLEEP ".data = "SLEEP".data ++ [' '] from by decide, List.append_assoc,
      show ([' '] : List Char) ++ arg = ' ' :: arg from rfl,
      parse_line_decompose _ (by decide) (by decide),
      show pyUpper "SLEEP".data = "SLEEP".data from by decide,
      dispatch_sleep_none (by rw [pyInt_rdropWhile]; exact h)]

/-- Witness for C4: an all-whitespace line, `SLEEP 20000` (out of range) and
`SLEEP abc` (not an integer). -/
theorem malformed_requests_witness :
    parse_and_execute "  ".data = "ERR empty request".data ∧
    parse_and_execute ("SLEEP ".data ++ "20000".data) = "ERR SLEEP ms must be 0..10000".data ∧
    parse_and_execute ("SLEEP ".data ++ "abc".data) = "ERR invalid argument".data :=
  ⟨malformed_requests.1 "  ".data (by decide),
   malformed_requests.2.1 "20000".data 20000 (by decide) (by decide),
   malformed_requests.2.2 "abc".data (by decide)⟩

/-- Modelled from the spec wording of C3 only ("split on first whitespace"):
the first whitespace-separated token of the line.  The code's actual split,
`splitOnceSpace`, splits at the first SPACE only; this definition exists
solely to state claim C3 as written and compare it against the code. -/
def specFirstToken (line : List Char) : List Char :=
  (List.dropWhile isPySpace line).takeWhile (fun c => ! isPySpace c)

/-- Claim C3 as stated is false: for the line `FOO<TAB>B` the first
whitespace-separated token uppercased is `FOO`, which is neither `SLEEP` nor
`ECHO`, but the code splits at the first SPACE only and replies
`ERR unknown op FOO<TAB>B`, not `ERR unknown op FOO`. -/
theorem unknown_op_counterexample :
    pyStrip "FOO\tB".data ≠ [] ∧
    pyUpper (specFirstToken "FOO\tB".data) ≠ "SLEEP".data ∧
    pyUpper (specFirstToken "FOO\tB".data) ≠ "ECHO".data ∧
    parse_and_execute "FOO\tB".data ≠
      "ERR unknown op ".data ++ pyUpper (specFirstToken "FOO\tB".data) := by decide

/-- Claim C3 amended: the opcode token is the part of the trimmed line before
the first SPACE (not any whitespace).  For every line whose trimmed form is
nonempty and whose uppercased first space-separated token is neither `SLEEP`
nor `ECHO`, the reply is exactly `ERR unknown op <OP>` with `<OP>` that
uppercased token; in particular for the docstring opcodes `FACT` and `FIB`. -/
theorem unknown_op :
    (∀ line : List Char, pyStrip line ≠ [] →
      pyUpper (List.takeWhile (fun c => ! decide (c = ' ')) (pyStrip line)) ≠ "SLEEP".data →
      pyUpper (List.takeWhile (fun c => ! decide (c = ' ')) (pyStrip line)) ≠ "ECHO".data →
      parse_and_execute line =
        "ERR unknown op ".data ++
          pyUpper (List.takeWhile (fun c => ! decide (c = ' ')) (pyStrip line))) ∧
    parse_and_execute "FACT 5".data = "ERR unknown op FACT".data ∧
    parse_and_execute "FIB 10".data = "ERR unknown op FIB".data := by
  refine ⟨?_, by decide, by decide⟩
  intro line hne h1 h2
  rw [← splitOnceSpace_fst] at h1 h2
  show (if pyStrip line = [] then "ERR empty request".data
    else dispatch (pyUpper (splitOnceSpace (pyStrip line)).1)
      ((splitOnceSpace (pyStrip line)).2.getD [])) = _
  rw [if_neg hne, dispatch_unknown _ h1 h2, ← splitOnceSpace_fst]

/-- Witness for C3 (amended) at the line `FOO bar`. -/
theorem unknown_op_witness :
    parse_and_execute "FOO bar".data =
      "ERR unknown op ".data ++
        pyUpper (List.takeWhile (fun c => ! decide (c = ' ')) (pyStrip "FOO bar".data)) :=
  unknown_op.1 "FOO bar".data (by decide) (by decide) (by decide)

/-! ### Claim C7: case-insensitive opcode matching -/

/-- Relation between a token and a variant of it obtained by changing the
case of any subset of its characters. -/
def caseVariant (tok tok2 : List Char) : Prop :=
  List.Forall₂ (fun a b => b = a ∨ b = a.toUpper ∨ b = a.toLower) tok tok2

theorem caseVariant_not_ws {tok tok2 : List Char} (hvar : caseVariant tok tok2)
    (htok : ∀ c ∈ tok, isPySpace c = false) : ∀ c ∈ tok2, isPySpace c = false := by
  induction hvar with
  | nil => simp
  | cons hab htl ih =>
    next a b l1 l2 =>
    intro c hc
    rcases List.mem_cons.mp hc with rfl | hc2
    · have ha := htok a (List.mem_cons_self a l1)
      rcases hab with rfl | rfl | rfl
      · exact ha
      · rw [isPySpace_toUpper]
        exact ha
      · rw [isPySpace_toLower]
        exact ha
    · exact ih (fun d hd => htok d (List.mem_cons_of_mem a hd)) c hc2

theorem caseVariant_upper {tok tok2 : List Char} (hvar : caseVariant tok tok2) :
    pyUpper tok = pyUpper tok2 := by
  induction hvar with
  | nil => rfl
  | cons hab htl ih =>
    next a b l1 l2 =>
    show Char.toUpper a :: pyUpper l1 = Char.toUpper b :: pyUpper l2
    rw [ih]
    rcases hab with rfl | rfl | rfl
    · rfl
    · rw [toUpper_toUpper]
    · rw [toUpper_toLower]

theorem pyStrip_decompose {ws tok rest : List Char}
    (hws : ∀ c ∈ ws, isPySpace c = true) (htok : ∀ c ∈ tok, isPySpace c = false)
    (hne : tok ≠ []) :
    pyStrip (ws ++ tok ++ rest) = tok ++ List.rdropWhile isPySpace rest := by
  obtain ⟨c, t, rfl⟩ := List.exists_cons_of_ne_nil hne
  unfold pyStrip
  rw [List.append_assoc, List.dropWhile_append_of_pos hws,
    show (c :: t) ++ rest = c :: (t ++ rest) from rfl,
    List.dropWhile_cons_of_neg (by simp [htok c (List.mem_cons_self c t)]),
    show c :: (t ++ rest) = (c :: t) ++ rest from rfl, rdropWhile_append]
  split_ifs with h
  · rw [List.isEmpty_eq_true] at h
    rw [h, List.append_nil, List.rdropWhile_eq_self_iff]
    intro hl
    simp [htok _ (List.getLast_mem hl)]
  · rfl

/-- Claim C7: the opcode is matched case-insensitively: replacing the first
whitespace-separated token of the line by any per-character case variant of
it leaves the response of `parse_and_execute` unchanged.  The line is
presented as leading whitespace `ws`, the token `tok` (nonblank characters),
and the remainder `rest` (which, when nonempty, starts with whitespace, so
that `tok` is the whole first token). -/
theorem opcode_case_insensitive (ws tok tok2 rest : List Char)
    (hws : ∀ c ∈ ws, isPySpace c = true)
    (htok : ∀ c ∈ tok, isPySpace c = false)
    (hrest : ∀ c, rest.head? = some c → isPySpace c = true)
    (hvar : caseVariant tok tok2) :
    parse_and_execute (ws ++ tok ++ rest) = parse_and_execute (ws ++ tok2 ++ rest) := by
  by_cases htk : tok = []
  · subst htk
    have : tok2 = [] := List.forall₂_nil_left_iff.mp hvar
    subst this
    rfl
  · have htok2 := caseVariant_not_ws hvar htok
    have htk2 : tok2 ≠ [] := by
      intro h
      subst h
      exact htk (List.length_eq_zero.mp (List.Forall₂.length_eq hvar))
    have hd1 := @pyStrip_decompose ws tok rest hws htok htk
    have hd2 := @pyStrip_decompose ws tok2 rest hws htok2 htk2
    show (if pyStrip (ws ++ tok ++ rest) = [] then "ERR empty request".data
      else dispatch (pyUpper (splitOnceSpace (pyStrip (ws ++ tok ++ rest))).1)
        ((splitOnceSpace (pyStrip (ws ++ tok ++ rest))).2.getD [])) =
      (if pyStrip (ws ++ tok2 ++ rest) = [] then "ERR empty request".data
      else dispatch (pyUpper (splitOnceSpace (pyStrip (ws ++ tok2 ++ rest))).1)
        ((splitOnceSpace (pyStrip (ws ++ tok2 ++ rest))).2.getD []))
    rw [hd1, hd2, if_neg (by simp [htk]), if_neg (by simp [htk2]),
      splitOnceSpace_append (fun c hc => not_space_of_not_ws (htok c hc)),
      splitOnceSpace_append (fun c hc => not_space_of_not_ws (htok2 c hc))]
    simp only [pyUpper, List.map_append]
    rw [show List.map Char.toUpper tok = List.map Char.toUpper tok2 from caseVariant_upper hvar]

/-- Witness for C7: `echo hi` and `EcHo hi` produce the same response. -/
theorem opcode_case_insensitive_witness :
    parse_and_execute ([] ++ "echo".data ++ " hi".data) =
      parse_and_execute ([] ++ "EcHo".data ++ " hi".data) :=
  opcode_case_insensitive [] "echo".data "EcHo".data " hi".data
    (by decide) (by decide) (by decide)
    (by simp only [caseVariant, List.forall₂_cons, List.Forall₂.nil]; decide)

/-! ### Claim C8: responses are single lines -/

/-- Worker write-back (server.py lines 198-199): the transmitted line is the
handler's response with the line terminator appended by the worker. -/
def worker_response (line : List Char) : List Char :=
  parse_and_execute line ++ ['\n']

theorem toUpper_not_term {d : Char} (h : ¬ (d = '\n' ∨ d = '\r')) :
    ¬ (d.toUpper = '\n' ∨ d.toUpper = '\r') := by
  have h10 : d.toNat ≠ 10 := fun hn => h (Or.inl (char_eq_of_toNat (hn.trans (by decide))))
  have h13 : d.toNat ≠ 13 := fun hn => h (Or.inr (char_eq_of_toNat (hn.trans (by decide))))
  rintro (hcon | hcon)
  · have h2 := congrArg Char.toNat hcon
    rw [char_toNat_toUpper, show ('\n').toNat = 10 from rfl] at h2
    split_ifs at h2 <;> omega
  · have h2 := congrArg Char.toNat hcon
    rw [char_toNat_toUpper, show ('\r').toNat = 13 from rfl] at h2
    split_ifs at h2 <;> omega

theorem pyStrip_append_ws {l term : List Char} (hterm : ∀ c ∈ term, isPySpace c = true) :
    pyStrip (l ++ term) = pyStrip l := by
  have hrt : List.rdropWhile isPySpace term = [] := List.rdropWhile_eq_nil_iff.mpr hterm
  by_cases h : List.dropWhile isPySpace l = []
  · have hdt : List.dropWhile isPySpace term = [] := List.dropWhile_eq_nil_iff.mpr hterm
    unfold pyStrip
    rw [List.dropWhile_append, if_pos (by simp [h]), hdt, h]
  · unfold pyStrip
    rw [List.dropWhile_append, if_neg (by simp [h]), rdropWhile_append,
      if_pos (by simp [hrt])]

/-- Characters of a `dispatch` result come from the opcode, the argument,
decimal digits, or one of the fixed reply literals. -/
theorem mem_dispatch {c : Char} {op arg : List Char} (h : c ∈ dispatch op arg) :
    c ∈ op ∨ c ∈ arg ∨ c.isDigit = true ∨
    c ∈ "ERR SLEEP ms must be 0..10000".data ∨ c ∈ "ERR invalid argument".data ∨
    c ∈ "OK ".data ∨ c ∈ "ERR unknown op ".data := by
  by_cases h1 : op = "SLEEP".data
  · subst h1
    cases hmi : pyInt arg with
    | none =>
      rw [dispatch_sleep_none hmi] at h
      tauto
    | some v =>
      rw [dispatch_sleep_some hmi] at h
      split_ifs at h with hr
      · tauto
      · rcases List.mem_append.mp h with h2 | h2
        · tauto
        · unfold pyIntRepr at h2
          rw [if_neg (by omega)] at h2
          exact Or.inr (Or.inr (Or.inl (natDecimal_mem_digit c h2)))
  · by_cases h2 : op = "ECHO".data
    · subst h2
      rw [dispatch_echo] at h
      rcases List.mem_append.mp h with h3 | h3 <;> tauto
    · rw [dispatch_unknown _ h1 h2] at h
      rcases List.mem_append.mp h with h3 | h3 <;> tauto

/-- Claim C8: for every input line whose only line terminators, if any, are
trailing (the line is `body ++ term` with `body` terminator-free and `term`
all terminators), the response of `parse_and_execute` contains no line
terminator; the terminator of the transmitted line is appended by the worker
(`worker_response`). -/
theorem response_single_line (body term : List Char)
    (hbody : ∀ c ∈ body, ¬ (c = '\n' ∨ c = '\r'))
    (hterm : ∀ c ∈ term, c = '\n' ∨ c = '\r') :
    (∀ c ∈ parse_and_execute (body ++ term), ¬ (c = '\n' ∨ c = '\r')) ∧
    worker_response (body ++ term) = parse_and_execute (body ++ term) ++ ['\n'] := by
  refine ⟨?_, rfl⟩
  intro c hc
  have hterm_ws : ∀ d ∈ term, isPySpace d = true := fun d hd => by
    rcases hterm d hd with rfl | rfl <;> decide
  have hps : pyStrip (body ++ term) = pyStrip body := pyStrip_append_ws hterm_ws
  rw [show parse_and_execute (body ++ term) =
      (if pyStrip (body ++ term) = [] then "ERR empty request".data
      else dispatch (pyUpper (splitOnceSpace (pyStrip (body ++ term))).1)
        ((splitOnceSpace (pyStrip (body ++ term))).2.getD [])) from rfl, hps] at hc
  have hbs : ∀ d ∈ pyStrip body, ¬ (d = '\n' ∨ d = '\r') :=
    fun d hd => hbody d (mem_pyStrip hd)
  by_cases hs : pyStrip body = []
  · rw [if_pos hs] at hc
    exact (by decide : ∀ x ∈ "ERR empty request".data, ¬ (x = '\n' ∨ x = '\r')) c hc
  · rw [if_neg hs] at hc
    rcases mem_dispatch hc with h | h | h | h | h | h | h
    · obtain ⟨d, hd, rfl⟩ := List.mem_map.mp h
      exact toUpper_not_term (hbs d (mem_splitOnceSpace_fst hd))
    · cases hsnd : (splitOnceSpace (pyStrip body)).2 with
      | none =>
        rw [hsnd] at h
        simp at h
      | some a =>
        rw [hsnd] at h
        exact hbs c (mem_splitOnceSpace_snd hsnd h)
    · rintro (rfl | rfl) <;> exact absurd h (by decide)
    · exact (by decide : ∀ x ∈ "ERR SLEEP ms must be 0..10000".data,
        ¬ (x = '\n' ∨ x = '\r')) c h
    · exact (by decide : ∀ x ∈ "ERR invalid argument".data,
        ¬ (x = '\n' ∨ x = '\r')) c h
    · exact (by decide : ∀ x ∈ "OK ".data, ¬ (x = '\n' ∨ x = '\r')) c h
    · exact (by decide : ∀ x ∈ "ERR unknown op ".data,
        ¬ (x = '\n' ∨ x = '\r')) c h

/-- Witness for C8 at the line `ECHO hi` followed by a trailing LF. -/
theorem response_single_line_witness :
    (∀ c ∈ parse_and_execute ("ECHO hi".data ++ ['\n']), ¬ (c = '\n' ∨ c = '\r')) ∧
    worker_response ("ECHO hi".data ++ ['\n']) =
      parse_and_execute ("ECHO hi".data ++ ['\n']) ++ ['\n'] :=
  response_single_line "ECHO hi".data ['\n'] (by decide) (by decide)

/-! ### Operational model of the task queue, worker pool and shutdown

The stateful concurrency engine of `ThreadPoolServer` is embedded as a
small-step transition relation.  Tasks are identified by ghost ids allocated
from a counter; the Python `Task` with `conn=None` (the shutdown sentinel of
`stop()`, line 116) is the `sentinel` alternative.  Each transition is one
atomic action of one thread, named after the code it transcribes. -/

/-- Server configuration fixed at startup (`ThreadPoolServer.__init__`):
worker count, queue capacity (`queue.Queue(maxsize=queue_size)`, modelled for
`queue_size > 0`), and the backpressure policy flag `reject_when_full`. -/
structure SrvConfig where
  workers : Nat
  cap : Nat
  rejectWhenFull : Bool

/-- Queue entry: a real task (ghost id) or the `conn=None` shutdown sentinel. -/
inductive QTask where
  | real (id : Nat)
  | sentinel
deriving DecidableEq

/-- Position of a worker thread in `_worker_loop` (lines 186-214):
`atLoopTop` is about to test `while not self._stop.is_set()`, `waitingGet`
is blocked inside `self.task_q.get()`, `exited` has left the loop. -/
inductive WorkerState where
  | atLoopTop
  | waitingGet
  | exited
deriving DecidableEq

/-- Global server state: the bounded FIFO queue, the stop flag, each worker's
loop position, the ordered ghost logs of processed ids, successfully enqueued
ids, and rejected tasks (id with the bytes sent to the client), the number of
sentinels `stop()` has pushed, and the fresh-id counter. -/
structure SrvState where
  queue : List QTask
  stop : Bool
  workers : List WorkerState
  processed : List Nat
  enqLog : List Nat
  rejected : List (Nat × List Char)
  sentinelsPushed : Nat
  nextId : Nat

/-- Ids of the real tasks currently in the queue. -/
def realIds (q : List QTask) : List Nat :=
  q.filterMap (fun t => match t with | QTask.real id => some id | QTask.sentinel => none)

/-- Initial state created by `__init__` / `start()`. -/
def initState (cfg : SrvConfig) : SrvState :=
  { queue := [], stop := false, workers := List.replicate cfg.workers WorkerState.atLoopTop,
    processed := [], enqLog := [], rejected := [], sentinelsPushed := 0, nextId := 0 }

/-- One atomic action of the server (`server.py`):

* `enqueue`: a Connection Reader's `task_q.put` succeeds (line 159 within the
  1s timeout under reject policy, line 161 after blocking under block
  policy); needs free space.  The reader's stop check (line 154) and the put
  are not atomic, so an enqueue is possible at any time.
* `reject`: under reject policy the queue stayed full for the bounded wait,
  `queue.Full` is caught (line 162) and `b"ERR server busy\n"` is sent to the
  client (line 165); the task is dropped, not enqueued.
* `setStop`: `stop()` sets the stop event (line 111).
* `sentinelPush` / `sentinelSkip`: `stop()` pushes one `conn=None` sentinel
  per worker with `put_nowait` (line 116), skipping on `queue.Full`
  (lines 117-118).
* `workerCommit`: a worker at the loop top sees the stop flag unset and
  enters `task_q.get()` (lines 190-191).
* `workerExitLoop`: a worker at the loop top sees the stop flag set and
  leaves the loop (line 190).
* `workerGetReal`: a blocked worker receives the front task; it is real, so
  the worker runs `parse_and_execute`, writes the reply, and increments
  `_processed` under the lock (lines 193-214), then returns to the loop top.
* `workerGetSentinel`: the front task is the sentinel (`conn is None`): the
  worker breaks out immediately (lines 193-195). -/
inductive Step (cfg : SrvConfig) : SrvState → SrvState → Prop where
  | enqueue (s : SrvState) (h : s.queue.length < cfg.cap) :
      Step cfg s { s with queue := s.queue ++ [QTask.real s.nextId],
                          enqLog := s.enqLog ++ [s.nextId], nextId := s.nextId + 1 }
  | reject (s : SrvState) (h : s.queue.length = cfg.cap)
      (hpol : cfg.rejectWhenFull = true) :
      Step cfg s { s with rejected := s.rejected ++ [(s.nextId, "ERR server busy\n".data)],
                          nextId := s.nextId + 1 }
  | setStop (s : SrvState) :
      Step cfg s { s with stop := true }
  | sentinelPush (s : SrvState) (h : s.stop = true) (hq : s.queue.length < cfg.cap)
      (hw : s.sentinelsPushed < cfg.workers) :
      Step cfg s { s with queue := s.queue ++ [QTask.sentinel],
                          sentinelsPushed := s.sentinelsPushed + 1 }
  | sentinelSkip (s : SrvState) (h : s.stop = true) (hq : s.queue.length = cfg.cap)
      (hw : s.sentinelsPushed < cfg.workers) :
      Step cfg s { s with sentinelsPushed := s.sentinelsPushed + 1 }
  | workerCommit (s : SrvState) (i : Nat) (h : s.workers.get? i = some WorkerState.atLoopTop)
      (hstop : s.stop = false) :
      Step cfg s { s with workers := s.workers.set i WorkerState.waitingGet }
  | workerExitLoop (s : SrvState) (i : Nat)
      (h : s.workers.get? i = some WorkerState.atLoopTop) (hstop : s.stop = true) :
      Step cfg s { s with workers := s.workers.set i WorkerState.exited }
  | workerGetReal (s : SrvState) (i : Nat) (id : Nat)
      (h : s.workers.get? i = some WorkerState.waitingGet)
      (hq : s.queue.head? = some (QTask.real id)) :
      Step cfg s { s with queue := s.queue.tail, processed := s.processed ++ [id],
                          workers := s.workers.set i WorkerState.atLoopTop }
  | workerGetSentinel (s : SrvState) (i : Nat)
      (h : s.workers.get? i = some WorkerState.waitingGet)
      (hq : s.queue.head? = some QTask.sentinel) :
      Step cfg s { s with queue := s.queue.tail,
                          workers := s.workers.set i WorkerState.exited }

/-- States reachable from server start by interleaved thread actions. -/
def Reachable (cfg : SrvConfig) (s : SrvState) : Prop :=
  Relation.ReflTransGen (Step cfg) (initState cfg) s

/-- Every worker thread has left `_worker_loop`. -/
def allExited (s : SrvState) : Bool :=
  s.workers.all (fun w => w = WorkerState.exited)

theorem realIds_append (q r : List QTask) : realIds (q ++ r) = realIds q ++ realIds r :=
  List.filterMap_append q r _

theorem realIds_singleton_real (id : Nat) : realIds [QTask.real id] = [id] := rfl

theorem realIds_singleton_sentinel : realIds [QTask.sentinel] = [] := rfl

theorem realIds_cons_real (id : Nat) (q : List QTask) :
    realIds (QTask.real id :: q) = id :: realIds q := rfl

theorem realIds_cons_sentinel (q : List QTask) :
    realIds (QTask.sentinel :: q) = realIds q := rfl

/-- Conservation of enqueued tasks: at every reachable state, the number of
times an id was successfully enqueued equals the number of times it was
processed plus the number of times it still sits in the queue. -/
theorem conservation_aux (cfg : SrvConfig) (s : SrvState) (h : Reachable cfg s) :
    ∀ id : Nat, s.enqLog.count id = s.processed.count id + (realIds s.queue).count id := by
  induction h with
  | refl => intro id; simp [initState, realIds]
  | tail hab hstep ih =>
    intro id
    cases hstep with
    | enqueue hlen =>
      have hih := ih id
      simp only [realIds_append, realIds_singleton_real, List.count_append]
      omega
    | reject hfull hpol => exact ih id
    | setStop => exact ih id
    | sentinelPush hst hq hw =>
      have hih := ih id
      simp only [realIds_append, realIds_singleton_sentinel, List.count_append]
      simpa using hih
    | sentinelSkip hst hq hw => exact ih id
    | workerCommit i hg hstop => exact ih id
    | workerExitLoop i hg hstop => exact ih id
    | workerGetReal i id2 hg hq =>
      obtain ⟨ys, hys⟩ := List.head?_eq_some_iff.mp hq
      have hih := ih id
      rw [hys] at hih ⊢
      simp only [List.tail_cons, realIds_cons_real, List.count_append, List.count_cons] at *
      by_cases hid : id2 = id <;> simp [hid] at * <;> omega
    | workerGetSentinel i hg hq =>
      obtain ⟨ys, hys⟩ := List.head?_eq_some_iff.mp hq
      have hih := ih id
      rw [hys] at hih ⊢
      simpa only [List.tail_cons, realIds_cons_sentinel] using hih

/-- Freshness and content invariants of the reject path: every rejected entry
carries exactly the `ERR server busy\n` bytes, ids are allocated below the
fresh counter, a rejected id was never enqueued, and under block policy
nothing is ever rejected. -/
theorem reject_invariants (cfg : SrvConfig) (s : SrvState) (h : Reachable cfg s) :
    (∀ p ∈ s.rejected, p.2 = "ERR server busy\n".data) ∧
    (∀ id ∈ s.enqLog, id < s.nextId) ∧
    (∀ p ∈ s.rejected, p.1 < s.nextId) ∧
    (∀ p ∈ s.rejected, p.1 ∉ s.enqLog) ∧
    (cfg.rejectWhenFull = false → s.rejected = []) := by
  induction h with
  | refl => simp [initState]
  | tail hab hstep ih =>
    obtain ⟨ih1, ih2, ih3, ih4, ih5⟩ := ih
    cases hstep with
    | enqueue hlen =>
      dsimp only
      refine ⟨ih1, ?_, ?_, ?_, ih5⟩
      · intro id hid
        rcases List.mem_append.mp hid with h1 | h1
        · exact Nat.lt_succ_of_lt (ih2 id h1)
        · rw [List.mem_singleton] at h1
          omega
      · exact fun p hp => Nat.lt_succ_of_lt (ih3 p hp)
      · intro p hp hmem
        rcases List.mem_append.mp hmem with h1 | h1
        · exact ih4 p hp h1
        · rw [List.mem_singleton] at h1
          exact absurd h1 (Nat.ne_of_lt (ih3 p hp))
    | reject hfull hpol =>
      dsimp only
      refine ⟨?_, fun id hid => Nat.lt_succ_of_lt (ih2 id hid), ?_, ?_, ?_⟩
      · intro p hp
        rcases List.mem_append.mp hp with h1 | h1
        · exact ih1 p h1
        · rw [List.mem_singleton] at h1
          rw [h1]
      · intro p hp
        rcases List.mem_append.mp hp with h1 | h1
        · exact Nat.lt_succ_of_lt (ih3 p h1)
        · rw [List.mem_singleton] at h1
          rw [h1]
          omega
      · intro p hp
        rcases List.mem_append.mp hp with h1 | h1
        · exact ih4 p h1
        · rw [List.mem_singleton] at h1
          rw [h1]
          exact fun hmem => absurd rfl (Nat.ne_of_lt (ih2 _ hmem))
      · intro hb
        rw [hb] at hpol
        exact absurd hpol (by simp)
    | setStop => exact ⟨ih1, ih2, ih3, ih4, ih5⟩
    | sentinelPush hst hq hw => exact ⟨ih1, ih2, ih3, ih4, ih5⟩
    | sentinelSkip hst hq hw => exact ⟨ih1, ih2, ih3, ih4, ih5⟩
    | workerCommit i hg hstop => exact ⟨ih1, ih2, ih3, ih4, ih5⟩
    | workerExitLoop i hg hstop => exact ⟨ih1, ih2, ih3, ih4, ih5⟩
    | workerGetReal i id2 hg hq => exact ⟨ih1, ih2, ih3, ih4, ih5⟩
    | workerGetSentinel i hg hq => exact ⟨ih1, ih2, ih3, ih4, ih5⟩

/-! ### Claims C5 and C6 -/

/-- Configuration of the loss scenario: one worker, capacity 2, block policy. -/
def cfgLost : SrvConfig := ⟨1, 2, false⟩

/-- State after: a task is enqueued, `stop()` sets the stop flag, the worker
observes it at the loop top and exits without draining the queue. -/
def lostState : SrvState :=
  { queue := [QTask.real 0], stop := true, workers := [WorkerState.exited],
    processed := [], enqLog := [0], rejected := [], sentinelsPushed := 0, nextId := 1 }

/-- State shared by the loss and rejection scenarios: exactly one task
(id 0) has been enqueued on a fresh single-worker server. -/
def oneEnqState : SrvState :=
  { queue := [QTask.real 0], stop := false, workers := [WorkerState.atLoopTop],
    processed := [], enqLog := [0], rejected := [], sentinelsPushed := 0, nextId := 1 }

/-- Intermediate state of the loss scenario after `stop()` set the flag. -/
def lostMid : SrvState := { oneEnqState with stop := true }

theorem lost_reachable : Reachable cfgLost lostState := by
  have h1 : Step cfgLost (initState cfgLost) oneEnqState :=
    Step.enqueue (initState cfgLost) (by decide)
  have h2 : Step cfgLost oneEnqState lostMid := Step.setStop oneEnqState
  have h3 : Step cfgLost lostMid lostState := Step.workerExitLoop lostMid 0 (by decide) rfl
  exact Relation.ReflTransGen.tail
    (Relation.ReflTransGen.tail (Relation.ReflTransGen.single h1) h2) h3

/-- Claim C5 as stated is false: in the execution where one task is enqueued,
`stop()` is called, and the single worker observes the stop flag at the loop
top and exits, the server reaches a state where every worker has exited and
the enqueued task 0 was neither processed nor dropped through the reject
backpressure path — it is silently lost in the queue. -/
theorem task_lost_counterexample :
    Reachable cfgLost lostState ∧ allExited lostState = true ∧ lostState.stop = true ∧
    lostState.enqLog = [0] ∧ lostState.processed = [] ∧ lostState.rejected = [] ∧
    lostState.queue = [QTask.real 0] :=
  ⟨lost_reachable, by decide, rfl, rfl, rfl, rfl, rfl⟩

/-- Claim C5 amended: at every reachable state, each successfully enqueued
task is accounted for exactly once, as processed or as still queued
(conservation); consequently no task is ever processed more times than it was
enqueued (with fresh ids: never twice) and none disappears while workers run.
Tasks still queued when the workers exit during shutdown are dropped
unprocessed — the loss exhibited by the counterexample. -/
theorem task_conservation (cfg : SrvConfig) (s : SrvState) (h : Reachable cfg s) :
    (∀ id : Nat, s.enqLog.count id = s.processed.count id + (realIds s.queue).count id) ∧
    (∀ id : Nat, s.processed.count id ≤ s.enqLog.count id) := by
  have hc := conservation_aux cfg s h
  exact ⟨hc, fun id => by have := hc id; omega⟩

/-- Witness for C5 (amended) at the concrete reachable state of the loss
scenario, id 0: enqueued once, processed zero times, still queued once. -/
theorem task_conservation_witness :
    lostState.enqLog.count 0 =
      lostState.processed.count 0 + (realIds lostState.queue).count 0 :=
  (task_conservation cfgLost lostState lost_reachable).1 0

/-- Configuration of the rejection scenario: one worker, capacity 1, reject
policy. -/
def cfgRj : SrvConfig := ⟨1, 1, true⟩

/-- State after: task 0 fills the queue, then the submission of task 1 times
out on the full queue and is rejected with `ERR server busy`. -/
def rjState : SrvState :=
  { queue := [QTask.real 0], stop := false, workers := [WorkerState.atLoopTop],
    processed := [], enqLog := [0],
    rejected := [(1, "ERR server busy\n".data)], sentinelsPushed := 0, nextId := 2 }

theorem rj_reachable : Reachable cfgRj rjState := by
  have h1 : Step cfgRj (initState cfgRj) oneEnqState :=
    Step.enqueue (initState cfgRj) (by decide)
  have h2 : Step cfgRj oneEnqState rjState := Step.reject oneEnqState (by decide) rfl
  exact Relation.ReflTransGen.tail (Relation.ReflTransGen.single h1) h2

/-- Claim C6: under the reject policy, a task dropped on sustained queue
saturation causes exactly the newline-terminated `ERR server busy` bytes to
be sent to that client, is never enqueued, and is never counted in the
processed total; under the block policy no rejection (and no busy error)
ever occurs, the producer simply waits for space (the `enqueue` transition
fires only when the queue has room). -/
theorem reject_backpressure (cfg : SrvConfig) (s : SrvState) (h : Reachable cfg s) :
    (∀ p ∈ s.rejected, p.2 = "ERR server busy\n".data) ∧
    (∀ p ∈ s.rejected, p.1 ∉ s.enqLog) ∧
    (∀ p ∈ s.rejected, s.processed.count p.1 = 0) ∧
    (cfg.rejectWhenFull = false → s.rejected = []) := by
  obtain ⟨h1, _h2, _h3, h4, h5⟩ := reject_invariants cfg s h
  refine ⟨h1, h4, ?_, h5⟩
  intro p hp
  have hcons := conservation_aux cfg s h p.1
  have hz : s.enqLog.count p.1 = 0 := List.count_eq_zero.mpr (h4 p hp)
  omega

/-- Witness for C6 at the concrete reachable state of the rejection scenario,
for the rejected entry for task 1. -/
theorem reject_backpressure_witness :
    ((1, "ERR server busy\n".data) : Nat × List Char).2 = "ERR server busy\n".data ∧
    ((1, "ERR server busy\n".data) : Nat × List Char).1 ∉ rjState.enqLog ∧
    rjState.processed.count ((1, "ERR server busy\n".data) : Nat × List Char).1 = 0 := by
  have hmem : ((1, "ERR server busy\n".data) : Nat × List Char) ∈ rjState.rejected := by
    simp [rjState]
  have h := reject_backpressure cfgRj rjState rj_reachable
  exact ⟨h.1 _ hmem, h.2.1 _ hmem, h.2.2.1 _ hmem⟩

/-! ### Claim C9: connection closing in the Connection Reader -/

/-- One iteration outcome of the per-connection line loop of `handle_client`
(server.py lines 153-168): a line arrives — recording the stop flag the
reader observes, whether the queue submission raised `queue.Full`, and
whether sending the busy error then failed with `OSError` — or the read
itself raises `OSError`.  End of the list is EOF. -/
inductive LineEvent where
  | line (stopSet : Bool) (queueFull : Bool) (sendFails : Bool)
  | readError

/-- Environment of one `handle_client` run: whether `conn.setsockopt`
(line 150) raises `OSError`, whether `conn.makefile` (line 152) raises, and
the events of the line loop. -/
structure ReaderEnv where
  setsockoptFails : Bool
  makefileFails : Bool
  events : List LineEvent

/-- Reason the handler returned. -/
inductive ReaderWhy where
  | setsockoptError
  | makefileError
  | eof
  | stopBreak
  | readErr
deriving DecidableEq

/-- Externally visible outcome of a `handle_client` run: whether the
connection was closed on exit, why the handler exited, and how many
`ERR server busy` replies were successfully sent. -/
structure ReaderResult where
  closed : Bool
  why : ReaderWhy
  busySent : Nat
deriving DecidableEq

/-- The line loop (lines 153-168): stop flag breaks the loop; `queue.Full`
sends the busy error (unless the send raises, which is swallowed) and
continues; a read error ends the loop via the outer `except`. -/
def runLines : List LineEvent → ReaderWhy × Nat
  | [] => (ReaderWhy.eof, 0)
  | LineEvent.readError :: _ => (ReaderWhy.readErr, 0)
  | LineEvent.line stopSet queueFull sendFails :: rest =>
    if stopSet then (ReaderWhy.stopBreak, 0)
    else
      let r := runLines rest
      (r.1, (if queueFull && !sendFails then 1 else 0) + r.2)

/-- Transcription of the control flow of `handle_client` (lines 148-170).
The `try` catches `OSError` and `ValueError`; `conn.setsockopt` runs before
the `with conn` statement, so an exception there skips the context manager
entirely and the handler returns without closing the connection.  Once
`with conn` is entered, every exit path — `conn.makefile` failure, EOF,
stop-flag break, read error, or any exception inside the block — runs
`conn.__exit__`, which closes the connection. -/
def handle_client (env : ReaderEnv) : ReaderResult :=
  if env.setsockoptFails then
    { closed := false, why := ReaderWhy.setsockoptError, busySent := 0 }
  else if env.makefileFails then
    { closed := true, why := ReaderWhy.makefileError, busySent := 0 }
  else
    { closed := true, why := (runLines env.events).1,
      busySent := (runLines env.events).2 }

/-- Claim C9 as stated is false: when `conn.setsockopt` raises `OSError`
before the `with conn` block is entered, the `except (OSError, ValueError)`
clause swallows the exception and the handler exits without ever closing the
connection. -/
def envSetsockoptFailure : ReaderEnv := ⟨true, false, []⟩

theorem reader_close_counterexample :
    (handle_client envSetsockoptFailure).closed = false := rfl

/-- Claim C9 amended: the Connection Reader closes its connection on every
exit path that reaches the `with conn` block — EOF, read error, stop flag
observed between lines, and exceptions raised inside the block (including
`conn.makefile` failure) — but not on an exception raised by the pre-`with`
`setsockopt` call. -/
theorem reader_always_closes (env : ReaderEnv) (h : env.setsockoptFails = false) :
    (handle_client env).closed = true := by
  unfold handle_client
  rw [if_neg (by simp [h])]
  split_ifs <;> rfl

/-- Witness for C9 (amended): a run with a rejected submission followed by a
read error still closes the connection. -/
def envBusyThenReadError : ReaderEnv :=
  ⟨false, false, [LineEvent.line false true false, LineEvent.readError]⟩

theorem reader_always_closes_witness :
    (handle_client envBusyThenReadError).closed = true :=
  reader_always_closes envBusyThenReadError rfl

example : parse_and_execute "ECHO hi".data = "OK hi".data := by decide
example : parse_and_execute "SLEEP 250".data = "OK 250".data := by decide
example : parse_and_execute "sleep 20000".data = "ERR SLEEP ms must be 0..10000".data := by decide
example : parse_and_execute "SLEEP x".data = "ERR invalid argument".data := by decide
example : parse_and_execute "  ".data = "ERR empty request".data := by decide
example : parse_and_execute "FACT 5".data = "ERR unknown op FACT".data := by decide
example : parse_and_execute "ECHO".data = "OK ".data := by decide
example : pyInt "  -4_2  ".data = some (-42) := by decide

end Server
